import Mathlib

/-!
# Verification of the CSV-to-PostgreSQL loader

A shallow embedding of the repository's data-loading pipeline:

* `src/data_processing/loaders/csv_to_postgres.py` — the Row Cleaner
  (`clean_data`), the Ordered Loader (`load_table`, `load_all_tables`,
  `verify_data`) and the CLI driver (`main`);
* `src/utils/config.py` — `validate_config`;
* `src/data_processing/converters/excel_to_csv.py` — `convert_excel_to_csv`.

Cell values are modelled by the inductive `Value`; pandas DataFrames by a
column-name list plus a list of rows (positional cell lists).  The
destination PostgreSQL store is modelled semantically: a table with a
single-column primary key is a finite map from key value to row, a row is
a finite map from column name to value, and the store is a finite map
from table name to table.  The repository's `schema/create_tables.sql`
is not part of the sources, so the store side is modelled from the spec:
each destination table exists with compatible columns and a declared
single-column primary key, which the loader's SQL (`ON CONFLICT (id)`)
fixes to the column `id`.
-/

deriving instance DecidableEq for Except

namespace UtSrDe

/-- A cell value as it circulates through pandas and psycopg2:
null (`NaN`/`None`/`NaT`), a string, an integer (`Int64`), or a
date-time (`pd.Timestamp`, abstracted to an integer code). -/
inductive Value
  | vNull
  | vStr (s : String)
  | vInt (n : Int)
  | vTime (t : Int)
deriving DecidableEq, Repr

/-- `True` exactly on the null cell (`pd.isna`). -/
def isNullB : Value → Bool
  | Value.vNull => true
  | _ => false

/-- First-match association-list lookup (used for CSV mappings, file
systems and Python dicts in the model). -/
def alookup {β : Type} : List (String × β) → String → Option β
  | [], _ => none
  | p :: ps, k => if p.1 = k then some p.2 else alookup ps k

/-- Accumulate decimal digits into a natural number; `none` as soon as
a non-digit appears. -/
def digitsVal : List Char → Nat → Option Nat
  | [], acc => some acc
  | c :: rest, acc =>
    if c.isDigit then digitsVal rest (acc * 10 + (c.toNat - 48)) else none

/-- Parse a nonempty all-digit character list to a natural number. -/
def digitsToNat : List Char → Option Nat
  | [] => none
  | cs => digitsVal cs 0

/-- Split a character list on a separator character (like
`str.split(sep)`: empty segments are kept). -/
def splitOnChar (sep : Char) : List Char → List (List Char)
  | [] => [[]]
  | c :: rest =>
    match splitOnChar sep rest with
    | [] => if c = sep then [[], []] else [[c]]
    | g :: gs => if c = sep then [] :: g :: gs else (c :: g) :: gs

/-- Strip leading and trailing spaces (the whitespace model used by the
Python `str`/`int`/`float` strippers). -/
def trimChars (cs : List Char) : List Char :=
  ((cs.dropWhile (fun c => c = ' ')).reverse.dropWhile (fun c => c = ' ')).reverse

/-- A numeric value as produced by `pd.to_numeric`: an exact decimal
`mant / 10 ^ scale`.  (The float64 rounding of very long decimals is
abstracted away; every value the claims touch is exactly
representable.) -/
structure PyFloat where
  mant : Int
  scale : Nat
deriving DecidableEq, Repr

/-- Whether the decimal is exactly an integer. -/
def pyFloatIntegral (q : PyFloat) : Bool :=
  decide (q.mant % ((10 : Int) ^ q.scale) = 0)

/-- The integer value of an integral decimal. -/
def pyFloatToInt (q : PyFloat) : Int :=
  q.mant / ((10 : Int) ^ q.scale)

/-- Parse a decimal string, modelling what `pd.to_numeric` accepts:
optional surrounding whitespace, optional sign, digits, optionally a
dot and fractional digits.  (The real parser accepts a few more forms;
the model accepts a faithful core.) -/
def parseNumString (s : String) : Option PyFloat :=
  let t := trimChars s.data
  let sgn : Int := match t with | '-' :: _ => -1 | _ => 1
  let body : List Char := match t with | '-' :: rest => rest | '+' :: rest => rest | cs => cs
  match splitOnChar '.' body with
  | [a] =>
    match digitsToNat a with
    | some n => some ⟨sgn * (n : Int), 0⟩
    | none => none
  | [a, b] =>
    match digitsToNat a, digitsToNat b with
    | some i, some f =>
      some ⟨sgn * ((i : Int) * (10 : Int) ^ b.length + (f : Int)), b.length⟩
    | _, _ => none
  | _ => none

/-- Error message raised by `.astype('Int64')` when the numeric value is
not exactly an integer. -/
def castErrMsg : String := "cannot safely cast non-equivalent float64 to Int64"

/-- `.astype('Int64')` applied to the result of
`pd.to_numeric(errors='coerce')`: null stays null, an integral number
becomes an `Int64`, and a non-integral number raises a `TypeError`. -/
def astypeInt64 : Option PyFloat → Except String Value
  | none => Except.ok Value.vNull
  | some q =>
    if pyFloatIntegral q then Except.ok (Value.vInt (pyFloatToInt q)) else Except.error castErrMsg

/-- `pd.to_numeric(errors='coerce')` on one cell: null and unparseable
strings become null (`none`), numbers parse to a decimal. -/
def toNumericCoerce : Value → Option PyFloat
  | Value.vNull => none
  | Value.vInt n => some ⟨n, 0⟩
  | Value.vTime t => some ⟨t, 0⟩
  | Value.vStr s => parseNumString s

/-- Parse an ISO `YYYY-MM-DD` date string to an integer code.  This
abstracts the pandas date-time parser: total, `none` on failure. -/
def parseDate (s : String) : Option Int :=
  match splitOnChar '-' (trimChars s.data) with
  | [ys, ms, ds] =>
    match digitsToNat ys, digitsToNat ms, digitsToNat ds with
    | some y, some m, some d =>
      if 1 ≤ m ∧ m ≤ 12 ∧ 1 ≤ d ∧ d ≤ 31 then
        some (((y * 10000 + m * 100 + d : Nat) : Int))
      else none
    | _, _, _ => none
  | _ => none

/-- `pd.to_datetime(errors='coerce')` on one cell: total, never raises;
unparseable input becomes null (`NaT`), numbers are taken as epoch
offsets. -/
def toDatetimeCoerce : Value → Value
  | Value.vNull => Value.vNull
  | Value.vTime t => Value.vTime t
  | Value.vInt n => Value.vTime n
  | Value.vStr s =>
    match parseDate s with
    | some t => Value.vTime t
    | none => Value.vNull

/-- The two per-column coercions `clean_data` applies: `ts` is
`pd.to_datetime(errors='coerce')`, `num` is
`pd.to_numeric(errors='coerce').astype('Int64')`. -/
inductive CoercionKind
  | ts
  | num
deriving DecidableEq, Repr

/-- One cell through one coercion.  Timestamp coercion is total;
numeric coercion raises when the parsed number is not an integer. -/
def coerceCell : CoercionKind → Value → Except String Value
  | CoercionKind.ts, v => Except.ok (toDatetimeCoerce v)
  | CoercionKind.num, v => astypeInt64 (toNumericCoerce v)

/-- The per-table coercion rules of `clean_data`, in the order the
source applies them (timestamp columns first, then id columns). -/
def tableRules : String → List (String × CoercionKind)
  | "bio_vip" =>
    [("created_on", CoercionKind.ts), ("updated_on", CoercionKind.ts), ("id", CoercionKind.num)]
  | "bio_email" => [("updated_on", CoercionKind.ts), ("id", CoercionKind.num)]
  | "bio_name" =>
    [("created_on", CoercionKind.ts), ("updated_on", CoercionKind.ts),
     ("id", CoercionKind.num), ("vip_id", CoercionKind.num)]
  | "bio_email_for_vip" =>
    [("is_bad", CoercionKind.num), ("id", CoercionKind.num),
     ("email_id", CoercionKind.num), ("vip_id", CoercionKind.num)]
  | "bio_email_for_vip_tags" => [("id", CoercionKind.num), ("emailforvip_id", CoercionKind.num)]
  | _ => []

/-- A pandas DataFrame: header column names plus positional rows. -/
structure DataFrame where
  cols : List String
  rows : List (List Value)
deriving DecidableEq, Repr

/-- Apply one coercion to column index `i` of every row
(`df[col] = coerce(df[col])`); the first failing cell aborts. -/
def coerceColumnAt (k : CoercionKind) (i : Nat) : List (List Value) → Except String (List (List Value))
  | [] => Except.ok []
  | r :: rs =>
    match coerceCell k (r.getD i Value.vNull) with
    | Except.error e => Except.error e
    | Except.ok v =>
      match coerceColumnAt k i rs with
      | Except.error e => Except.error e
      | Except.ok rest => Except.ok (r.set i v :: rest)

/-- Apply the table's rule list in order, coercing each named column
that is present (`if col in df.columns`). -/
def applyRules (cols : List String) : List (String × CoercionKind) → List (List Value) → Except String (List (List Value))
  | [], rows => Except.ok rows
  | (c, k) :: rs, rows =>
    if c ∈ cols then
      match coerceColumnAt k (cols.indexOf c) rows with
      | Except.error e => Except.error e
      | Except.ok rows₂ => applyRules cols rs rows₂
    else applyRules cols rs rows

/-- Blank-string normalization `df.replace('', None)`. -/
def blankToNull : Value → Value
  | Value.vStr s => if s = "" then Value.vNull else Value.vStr s
  | v => v

/-- `CSVToPostgresLoader.clean_data`: drop rows that are entirely null
(`df.dropna(how='all')`), normalize blank strings to null, then apply
the per-table coercions.  Note the all-null drop happens on the raw
rows, before normalization and coercion. -/
def clean_data (df : DataFrame) (t : String) : Except String DataFrame :=
  let kept := df.rows.filter (fun r => !(r.all isNullB))
  let norm := kept.map (fun r => r.map blankToNull)
  match applyRules df.cols (tableRules t) norm with
  | Except.error e => Except.error e
  | Except.ok out => Except.ok ⟨df.cols, out⟩

/-- Modelled from the spec: a stored row of a destination table is a
finite map from column name to value (`create_tables.sql` is not in
the sources; the spec guarantees each target table exists with
compatible column types). -/
def RowF : Type := Finmap (fun _ : String => Value)

/-- Modelled from the spec: a destination table with its declared
single-column primary key (`id`, the column the loader's
`ON CONFLICT (id)` clause names) is a finite map from key value to
stored row. -/
def Table : Type := Finmap (fun _ : Value => RowF)

/-- Modelled from the spec: the destination store maps each table name
to its table. -/
def Store : Type := Finmap (fun _ : String => Table)

instance : DecidableEq RowF := Finmap.decidableEq
instance : DecidableEq Table := Finmap.decidableEq
instance : DecidableEq Store := Finmap.decidableEq
instance : EmptyCollection RowF := Finmap.instEmptyCollection
instance : EmptyCollection Table := Finmap.instEmptyCollection
instance : EmptyCollection Store := Finmap.instEmptyCollection

/-- The incoming row's primary-key value: the value at column `id` of
the `INSERT` column list, or null when `id` is not among the columns
(in which case the store-side `NOT NULL` primary-key constraint
fires). -/
def idOf (cols : List String) (vals : List Value) : Value :=
  (alookup (cols.zip vals) "id").getD Value.vNull

/-- The `SET col = EXCLUDED.col` pairs of the upsert statement: every
insert column except the key `id`, paired with the incoming row's
value. -/
def pairsOf (cols : List String) (vals : List Value) : List (String × Value) :=
  (cols.zip vals).filter (fun p => decide (p.1 ≠ "id"))

/-- Apply a sequence of column assignments to a stored row. -/
def rowUpd (r : RowF) (P : List (String × Value)) : RowF :=
  P.foldl (fun r p => r.insert p.1 p.2) r

/-- The freshly inserted row for the no-conflict case: all insert
columns with their incoming values. -/
def mkRowF (cols : List String) (vals : List Value) : RowF :=
  rowUpd ∅ (cols.zip vals)

/-- The row stored at key `k` after one upsert: the incoming row if no
row with key `k` existed, otherwise the old row with every non-key
insert column overwritten (`DO UPDATE SET col = EXCLUDED.col`). -/
def nextRow (o : Option RowF) (cols : List String) (vals : List Value) : RowF :=
  match o with
  | some r => rowUpd r (pairsOf cols vals)
  | none => mkRowF cols vals

/-- One row of the executed upsert, given that the key is non-null:
insert-or-update at the incoming key. -/
def upsertRowPure (cols : List String) (tbl : Table) (vals : List Value) : Table :=
  tbl.insert (idOf cols vals) (nextRow (tbl.lookup (idOf cols vals)) cols vals)

/-- Error message for a null primary key (PostgreSQL `NOT NULL`
constraint violation on the `id` column). -/
def nullKeyMsg : String := "null value in column id violates not-null constraint"

/-- Error message for a duplicated column name in the `INSERT` column
list (PostgreSQL rejects the statement). -/
def dupColMsg : String := "column specified more than once"

/-- Error message for an upsert statement whose `SET` list is empty
(the generated SQL is syntactically invalid). -/
def emptySetMsg : String := "syntax error in upsert statement"

/-- One `execute` of the upsert statement on one parameter tuple. -/
def upsertTable (cols : List String) (tbl : Table) (vals : List Value) : Except String Table :=
  if idOf cols vals = Value.vNull then Except.error nullKeyMsg
  else Except.ok (upsertRowPure cols tbl vals)

/-- The non-key columns of the `INSERT` column list (the `SET` list of
the generated statement). -/
def nonKeyCols (cols : List String) : List String :=
  cols.filter (fun c => decide (c ≠ "id"))

/-- Sequential execution of the upsert over all tuples
(`cursor.executemany`): stops at the first failing tuple. -/
def upsertFold (cols : List String) : Table → List (List Value) → Except String Table
  | tbl, [] => Except.ok tbl
  | tbl, vals :: rest =>
    match upsertTable cols tbl vals with
    | Except.error e => Except.error e
    | Except.ok tbl₂ => upsertFold cols tbl₂ rest

/-- Execute the upsert statement built by `load_table` over all data
tuples: the statement itself is rejected when the column list repeats
a column or the `SET` list is empty; otherwise the tuples are applied
in order. -/
def execUpsertMany (cols : List String) (tbl : Table) (tuples : List (List Value)) : Except String Table :=
  if ¬ cols.Nodup then Except.error dupColMsg
  else if nonKeyCols cols = [] then Except.error emptySetMsg
  else upsertFold cols tbl tuples

/-- The contents of one destination table (an absent entry reads as an
empty table). -/
def getTableF (s : Store) (t : String) : Table :=
  (s.lookup t).getD ∅

/-- Replace the contents of one destination table. -/
def setTableF (s : Store) (t : String) (tbl : Table) : Store :=
  s.insert t tbl

/-- The data directory: CSV file name to parsed DataFrame.  A name not
in the list is a missing file. -/
def Files : Type := List (String × DataFrame)

/-- The fixed table load order (`self.table_load_order`). -/
def table_load_order : List String :=
  ["bio_vip", "bio_email", "bio_name", "bio_email_for_vip", "bio_email_for_vip_tags"]

/-- The CSV file mappings (`self.csv_mappings`). -/
def csv_mappings : List (String × String) :=
  [("bio_vip", "BIO_VIP.csv"), ("bio_email", "BIO_EMAIL.csv"), ("bio_name", "BIO_NAME.csv"),
   ("bio_email_for_vip", "BIO_EMAIL_FOR_VIP.csv"),
   ("bio_email_for_vip_tags", "BIO_EMAIL_FOR_VIP_TAGS.csv")]

/-- `CSVToPostgresLoader.load_table`: missing mapping or missing file
yields 0 rows without error; otherwise clean the data, return 0 for an
empty cleaned frame, else execute the bulk upsert and report the
affected-row count (one per tuple, summed by `executemany`). -/
def load_table (files : Files) (s : Store) (t : String) : Except String (Store × Nat) :=
  match alookup csv_mappings t with
  | none => Except.ok (s, 0)
  | some file =>
    match alookup files file with
    | none => Except.ok (s, 0)
    | some df =>
      match clean_data df t with
      | Except.error e => Except.error e
      | Except.ok cleaned =>
        if cleaned.rows = [] then Except.ok (s, 0)
        else
          match execUpsertMany cleaned.cols (getTableF s t) cleaned.rows with
          | Except.error e => Except.error e
          | Except.ok tbl => Except.ok (setTableF s t tbl, cleaned.rows.length)

/-- The loop body of `load_all_tables`: load each table in order on the
pending transaction state, accumulating per-table row counts; the
first failure aborts. -/
def loadLoop (files : Files) : Store → List String → Except String (Store × List (String × Nat))
  | s, [] => Except.ok (s, [])
  | s, t :: ts =>
    match load_table files s t with
    | Except.error e => Except.error e
    | Except.ok (s₂, n) =>
      match loadLoop files s₂ ts with
      | Except.error e => Except.error e
      | Except.ok (s₃, res) => Except.ok (s₃, (t, n) :: res)

/-- `CSVToPostgresLoader.load_all_tables`: run the loop inside one
transaction; on success commit (publish the pending state) and return
the results, on any exception roll back (the store reverts to its
initial state) and re-raise — the accumulated results are not
returned. -/
def load_all_tables (files : Files) (s : Store) : Store × Except String (List (String × Nat)) :=
  match loadLoop files s table_load_order with
  | Except.ok (s₂, res) => (s₂, Except.ok res)
  | Except.error e => (s, Except.error e)

/-- Number of rows of one destination table (`SELECT COUNT(*)`). -/
def countRows (s : Store) (t : String) : Nat :=
  (getTableF s t).entries.card

/-- Execute one row-count query: reading does not change the store. -/
def execCount (s : Store) (t : String) : Store × Nat :=
  (s, countRows s t)

/-- `CSVToPostgresLoader.verify_data`: one count query per table in the
fixed order, accumulating the name-to-count mapping and threading the
store through each query. -/
def verify_data (s : Store) : Store × List (String × Nat) :=
  table_load_order.foldl (fun acc t =>
    ((execCount acc.1 t).1, acc.2 ++ [(t, (execCount acc.1 t).2)])) (s, [])

/-- A Python value as found in a configuration dict. -/
inductive PyVal
  | pStr (s : String)
  | pInt (n : Int)
  | pNone
deriving DecidableEq, Repr

/-- Python `int(x)` applicability on a string: optional surrounding
whitespace, optional sign, nonempty digits. -/
def pyParseInt (s : String) : Option Int :=
  match trimChars s.data with
  | '-' :: rest => (digitsToNat rest).map (fun n => -(n : Int))
  | '+' :: rest => (digitsToNat rest).map (fun n => (n : Int))
  | cs => (digitsToNat cs).map (fun n => (n : Int))

/-- Whether Python `int(v)` succeeds: integers yes, strings when they
parse, `None` raises `TypeError`. -/
def pyIntOk : PyVal → Bool
  | PyVal.pInt _ => true
  | PyVal.pStr s => (pyParseInt s).isSome
  | PyVal.pNone => false

/-- The required configuration keys of `validate_config`. -/
def required_keys : List String :=
  ["host", "port", "database", "user", "password"]

/-- `validate_config`: all five keys present and `int(config['port'])`
succeeds. -/
def validate_config (cfg : List (String × PyVal)) : Bool :=
  if required_keys.all (fun k => (alookup cfg k).isSome) then
    pyIntOk ((alookup cfg "port").getD PyVal.pNone)
  else false

/-- Observable events of one run of the loader's `main`. -/
inductive Event
  | connectEv
  | connectFailEv
  | commitEv
  | rollbackEv
  | verifyEv
  | closeEv
  | exitEv (code : Nat)
deriving DecidableEq, Repr

/-- Outcome of one run of `main`: the event trace, the process exit
code (0 = success) and the final destination store. -/
structure RunOutcome where
  trace : List Event
  exitCode : Nat
  store : Store

/-- The loader's `main` (`csv_to_postgres.py`): validate the
configuration (exiting non-zero before any connection attempt on
failure), connect, then either verify only, or run `load_all_tables`
followed by verification; exceptions are caught and turn into exit
code 1; the `finally` block closes the connection whenever one was
opened. -/
def pyMain (cfg : List (String × PyVal)) (connectOk : Bool) (files : Files) (s : Store)
    (verifyOnly : Bool) : RunOutcome :=
  if validate_config cfg = false then ⟨[Event.exitEv 1], 1, s⟩
  else if connectOk = false then ⟨[Event.connectFailEv, Event.exitEv 1], 1, s⟩
  else if verifyOnly then ⟨[Event.connectEv, Event.verifyEv, Event.closeEv], 0, (verify_data s).1⟩
  else
    match load_all_tables files s with
    | (s₂, Except.ok _) =>
      ⟨[Event.connectEv, Event.commitEv, Event.verifyEv, Event.closeEv], 0, s₂⟩
    | (s₂, Except.error _) =>
      ⟨[Event.connectEv, Event.rollbackEv, Event.exitEv 1, Event.closeEv], 1, s₂⟩

/-- One sheet of the Excel workbook: its name and the result of
`pd.read_excel` for it (a sheet whose conversion fails is modelled by
an error result). -/
structure Sheet where
  name : String
  readResult : Except String (List (List Value))

/-- The Excel input as `convert_excel_to_csv` observes it. -/
structure ExcelFile where
  pathExists : Bool
  suffix : String
  readOk : Bool
  sheets : List Sheet

/-- Whether an `Except` result is a success. -/
def exceptOk {α : Type} : Except String α → Bool
  | Except.ok _ => true
  | Except.error _ => false

/-- Sheet-name cleaning: keep alphanumerics, space, hyphen and
underscore, strip trailing spaces, replace spaces by underscores. -/
def cleanSheetName (s : String) : String :=
  let kept := s.data.filter (fun c => c.isAlphanum || c = ' ' || c = '-' || c = '_')
  let stripped := (kept.reverse.dropWhile (fun c => c = ' ')).reverse
  String.mk (stripped.map (fun c => if c = ' ' then '_' else c))

/-- Output path of one converted sheet. -/
def csvPath (outDir : String) (sheetName : String) : String :=
  outDir ++ "/" ++ cleanSheetName sheetName ++ ".csv"

/-- `convert_excel_to_csv`: validate the input file, then convert the
sheets in order; a sheet whose read fails is skipped (`except:
continue`) and only the successfully written CSV paths are returned. -/
def convert_excel_to_csv (f : ExcelFile) (outDir : String) : Except String (List String) :=
  if f.pathExists = false then Except.error "Excel file not found"
  else if f.suffix ≠ ".xlsx" ∧ f.suffix ≠ ".xls" then Except.error "Unsupported file format"
  else if f.readOk = false then Except.error "Error reading Excel file"
  else
    Except.ok (f.sheets.foldl (fun acc sh =>
      match sh.readResult with
      | Except.error _ => acc
      | Except.ok _ => acc ++ [csvPath outDir sh.name]) [])

/-- First-defined option: `ofirst a b` is `a` when `a` is `some`, else
`b`.  Used to state lookup laws of sequential assignments. -/
def ofirst {α : Type} : Option α → Option α → Option α
  | some a, _ => some a
  | none, b => b

/-- The value of the last assignment to column `c` in an assignment
list, if any. -/
def plast (P : List (String × Value)) (c : String) : Option Value :=
  P.foldl (fun acc p => if p.1 = c then some p.2 else acc) none

/-- The table after a sequence of successful upserts. -/
def upsertChain (cols : List String) (tuples : List (List Value)) (tbl : Table) : Table :=
  tuples.foldl (upsertRowPure cols) tbl

/-- How a sequence of upserts transforms the row stored at key `κ`
(`none` = no row): only tuples whose key is `κ` act. -/
def chainAt (cols : List String) (κ : Value) (tuples : List (List Value)) (o : Option RowF) : Option RowF :=
  tuples.foldl (fun o vals => if idOf cols vals = κ then some (nextRow o cols vals) else o) o

/-- Like `chainAt` for a list of tuples that are all known to match. -/
def matchChain (cols : List String) (ms : List (List Value)) (o : Option RowF) : Option RowF :=
  ms.foldl (fun o vals => some (nextRow o cols vals)) o

/-- All non-key assignment pairs of a tuple list, concatenated. -/
def bigP (cols : List String) : List (List Value) → List (String × Value)
  | [] => []
  | m :: ms => pairsOf cols m ++ bigP cols ms

/-! ## Lemmas about the Row Cleaner -/

theorem coerceColumnAt_ok_length (k : CoercionKind) (i : Nat) :
    ∀ rows out, coerceColumnAt k i rows = Except.ok out → out.length = rows.length := by
  intro rows
  induction rows with
  | nil =>
    intro out h
    simp only [coerceColumnAt] at h
    cases h
    rfl
  | cons r rs ih =>
    intro out h
    simp only [coerceColumnAt] at h
    cases hc : coerceCell k (r.getD i Value.vNull) with
    | error e => rw [hc] at h; exact Except.noConfusion h
    | ok v =>
      rw [hc] at h
      cases hr : coerceColumnAt k i rs with
      | error e => rw [hr] at h; exact Except.noConfusion h
      | ok rest =>
        rw [hr] at h
        cases h
        simp [ih rest hr]

theorem applyRules_ok_length (cols : List String) :
    ∀ rules rows out, applyRules cols rules rows = Except.ok out → out.length = rows.length := by
  intro rules
  induction rules with
  | nil =>
    intro rows out h
    simp only [applyRules] at h
    cases h
    rfl
  | cons p rs ih =>
    intro rows out h
    simp only [applyRules] at h
    by_cases hm : p.1 ∈ cols
    · rw [if_pos hm] at h
      cases hcc : coerceColumnAt p.2 (cols.indexOf p.1) rows with
      | error e => rw [hcc] at h; exact Except.noConfusion h
      | ok rows₂ =>
        rw [hcc] at h
        have h₁ := ih rows₂ out h
        have h₂ := coerceColumnAt_ok_length p.2 (cols.indexOf p.1) rows rows₂ hcc
        omega
    · rw [if_neg hm] at h
      exact ih rows out h

theorem clean_data_ok_rows (df : DataFrame) (t : String) (out : DataFrame)
    (h : clean_data df t = Except.ok out) :
    out.rows.length = (df.rows.filter (fun r => !(r.all isNullB))).length := by
  simp only [clean_data] at h
  cases happ : applyRules df.cols (tableRules t)
      ((df.rows.filter (fun r => !(r.all isNullB))).map (fun r => r.map blankToNull)) with
  | error e => rw [happ] at h; exact Except.noConfusion h
  | ok o =>
    rw [happ] at h
    cases h
    have := applyRules_ok_length df.cols (tableRules t)
      ((df.rows.filter (fun r => !(r.all isNullB))).map (fun r => r.map blankToNull)) o happ
    simpa using this

/-- C2 counterexample: a row whose single cell is the non-numeric
string `abc` becomes entirely null only through coercion; `clean_data`
still emits it (one row, all null), so a row that is all-null after
normalization and coercion is not dropped. -/
theorem claim_C2_counterexample :
    clean_data ⟨["id"], [[Value.vStr "abc"]]⟩ "bio_vip" =
        Except.ok ⟨["id"], [[Value.vNull]]⟩ ∧
      ([Value.vNull].all isNullB) = true := by
  constructor
  · decide
  · decide

/-- C2 (amended): the all-null drop of `clean_data` happens on the raw
rows — a row is dropped exactly when every cell is null before
blank-string normalization and coercion, so the emitted row count is
the count of raw rows that are not entirely null. -/
theorem claim_C2 (df : DataFrame) (t : String) (out : DataFrame)
    (h : clean_data df t = Except.ok out) :
    out.rows.length = (df.rows.filter (fun r => !(r.all isNullB))).length :=
  clean_data_ok_rows df t out h

theorem claim_C2_witness :
    clean_data ⟨["id"], [[Value.vStr "7"], [Value.vNull]]⟩ "bio_vip" =
        Except.ok ⟨["id"], [[Value.vInt 7]]⟩ ∧
      (⟨["id"], [[Value.vInt 7]]⟩ : DataFrame).rows.length =
        (([[Value.vStr "7"], [Value.vNull]] : List (List Value)).filter
          (fun r => !(r.all isNullB))).length :=
  ⟨by decide, claim_C2 ⟨["id"], [[Value.vStr "7"], [Value.vNull]]⟩ "bio_vip"
    ⟨["id"], [[Value.vInt 7]]⟩ (by decide)⟩

/-- C4 counterexample: the cell `1.5` in the numeric-designated column
`id` raises during coercion (`astype('Int64')` cannot safely cast the
non-integral float), so coercion is not non-raising. -/
theorem claim_C4_counterexample :
    clean_data ⟨["id"], [[Value.vStr "1.5"]]⟩ "bio_vip" = Except.error castErrMsg ∧
      coerceCell CoercionKind.num (Value.vStr "1.5") = Except.error castErrMsg := by
  constructor
  · decide
  · decide

/-- C4 (amended): timestamp coercion is total (every cell becomes a
date-time or null, never an error); numeric coercion yields an integer
or null except when the cell parses as a non-integral number, in which
case the `Int64` cast raises. -/
theorem claim_C4 (v : Value) :
    (∃ w, coerceCell CoercionKind.ts v = Except.ok w ∧
      (w = Value.vNull ∨ ∃ t, w = Value.vTime t)) ∧
    (coerceCell CoercionKind.num v = Except.ok Value.vNull ∨
      (∃ n, coerceCell CoercionKind.num v = Except.ok (Value.vInt n)) ∨
      (∃ q, toNumericCoerce v = some q ∧ pyFloatIntegral q = false ∧
        coerceCell CoercionKind.num v = Except.error castErrMsg)) := by
  constructor
  · refine ⟨toDatetimeCoerce v, rfl, ?_⟩
    cases v with
    | vNull => exact Or.inl rfl
    | vTime t => exact Or.inr ⟨t, rfl⟩
    | vInt n => exact Or.inr ⟨n, rfl⟩
    | vStr s =>
      simp only [toDatetimeCoerce]
      cases hp : parseDate s with
      | none => exact Or.inl rfl
      | some t => exact Or.inr ⟨t, rfl⟩
  · show astypeInt64 (toNumericCoerce v) = Except.ok Value.vNull ∨ _
    cases hq : toNumericCoerce v with
    | none => exact Or.inl rfl
    | some q =>
      cases hi : pyFloatIntegral q with
      | true =>
        exact Or.inr (Or.inl ⟨pyFloatToInt q,
          by simp only [coerceCell]; rw [hq]; simp [astypeInt64, hi]⟩)
      | false =>
        exact Or.inr (Or.inr ⟨q, rfl, hi,
          by simp only [coerceCell]; rw [hq]; simp [astypeInt64, hi]⟩)

/-! ## Lookup laws for rows and assignment sequences -/

theorem ofirst_none_right {α : Type} (a : Option α) : ofirst a none = a := by
  cases a <;> rfl

theorem plast_foldl_acc (c : String) :
    ∀ (P : List (String × Value)) (a : Option Value),
      P.foldl (fun acc p => if p.1 = c then some p.2 else acc) a = ofirst (plast P c) a := by
  intro P
  induction P with
  | nil => intro a; rfl
  | cons p ps ih =>
    intro a
    rw [List.foldl_cons, ih]
    have hp : plast (p :: ps) c = ofirst (plast ps c) (if p.1 = c then some p.2 else none) := by
      simp only [plast, List.foldl_cons]
      exact ih _
    rw [hp]
    by_cases h : p.1 = c <;> cases hps : plast ps c <;> simp [h, ofirst]

theorem plast_cons (p : String × Value) (ps : List (String × Value)) (c : String) :
    plast (p :: ps) c = ofirst (plast ps c) (if p.1 = c then some p.2 else none) := by
  simp only [plast, List.foldl_cons]
  exact plast_foldl_acc c ps _

theorem plast_append (P Q : List (String × Value)) (c : String) :
    plast (P ++ Q) c = ofirst (plast Q c) (plast P c) := by
  simp only [plast, List.foldl_append]
  exact plast_foldl_acc c Q _

theorem plast_none_of_not_mem (c : String) :
    ∀ P : List (String × Value), c ∉ P.map Prod.fst → plast P c = none := by
  intro P
  induction P with
  | nil => intro _; rfl
  | cons p ps ih =>
    intro h
    have h1 : ¬ p.1 = c := fun hc => h (by simp [hc])
    have h2 : c ∉ ps.map Prod.fst := fun hc => h (by simp [hc])
    rw [plast_cons, ih h2, if_neg h1]
    rfl

theorem plast_some_mem (c : String) :
    ∀ P : List (String × Value), ∀ w, plast P c = some w → c ∈ P.map Prod.fst := by
  intro P
  induction P with
  | nil => intro w h; exact Option.noConfusion h
  | cons p ps ih =>
    intro w h
    rw [plast_cons] at h
    cases hps : plast ps c with
    | some x => simp [ih x hps]
    | none =>
      rw [hps] at h
      by_cases hc : p.1 = c
      · simp [hc.symm]
      · rw [if_neg hc] at h
        exact Option.noConfusion h

theorem plast_filter_ne_id (c : String) (hc : c ≠ "id") :
    ∀ P : List (String × Value),
      plast (P.filter (fun p => decide (p.1 ≠ "id"))) c = plast P c := by
  intro P
  induction P with
  | nil => rfl
  | cons p ps ih =>
    rw [List.filter_cons]
    by_cases hid : p.1 = "id"
    · have hd : (decide (p.1 ≠ "id")) = false := by simp [hid]
      rw [hd]
      simp only [Bool.false_eq_true, if_false]
      rw [ih, plast_cons, if_neg (fun hpc : p.1 = c => hc (hpc ▸ hid.symm ▸ rfl))]
      exact (ofirst_none_right _).symm
    · have hd : (decide (p.1 ≠ "id")) = true := by simp [hid]
      rw [hd]
      simp only [if_true]
      rw [plast_cons, ih, plast_cons]

theorem plast_eq_alookup_of_nodup (c : String) :
    ∀ P : List (String × Value), (P.map Prod.fst).Nodup → plast P c = alookup P c := by
  intro P
  induction P with
  | nil => intro _; rfl
  | cons p ps ih =>
    intro hnd
    rw [List.map_cons, List.nodup_cons] at hnd
    rw [plast_cons]
    show _ = if p.1 = c then some p.2 else alookup ps c
    by_cases hc : p.1 = c
    · rw [plast_none_of_not_mem c ps (hc ▸ hnd.1), if_pos hc, if_pos hc]
      rfl
    · rw [if_neg hc, if_neg hc, ofirst_none_right, ih hnd.2]

theorem alookup_isSome_of_mem_keys (c : String) :
    ∀ P : List (String × Value), c ∈ P.map Prod.fst → ∃ w, alookup P c = some w := by
  intro P
  induction P with
  | nil => intro h; exact absurd h (List.not_mem_nil c)
  | cons p ps ih =>
    intro h
    by_cases hc : p.1 = c
    · exact ⟨p.2, by simp [alookup, hc]⟩
    · have : c ∈ ps.map Prod.fst := by
        rcases List.mem_cons.mp h with h1 | h1
        · exact absurd h1.symm hc
        · exact h1
      rcases ih this with ⟨w, hw⟩
      exact ⟨w, by simp [alookup, hc, hw]⟩

theorem rowUpd_lookup :
    ∀ (P : List (String × Value)) (r : RowF) (c : String),
      (rowUpd r P).lookup c = ofirst (plast P c) (r.lookup c) := by
  intro P
  induction P with
  | nil => intro r c; rfl
  | cons p ps ih =>
    intro r c
    show (rowUpd (r.insert p.1 p.2) ps).lookup c = _
    rw [ih, plast_cons]
    by_cases h : p.1 = c
    · rw [← h, Finmap.lookup_insert]
      cases hps : plast ps p.1 <;> simp [ofirst]
    · rw [Finmap.lookup_insert_of_ne r (fun hc => h hc.symm), if_neg h]
      cases hps : plast ps c <;> simp [ofirst]

theorem rowUpd_append (r : RowF) (P Q : List (String × Value)) :
    rowUpd r (P ++ Q) = rowUpd (rowUpd r P) Q := by
  simp [rowUpd, List.foldl_append]

theorem mkRowF_lookup (cols : List String) (vals : List Value) (c : String) :
    (mkRowF cols vals).lookup c = plast (cols.zip vals) c := by
  show (rowUpd ∅ _).lookup c = _
  rw [rowUpd_lookup, Finmap.lookup_empty]
  exact ofirst_none_right _

theorem ofirst_some_left {α : Type} (a : α) (b : Option α) : ofirst (some a) b = some a := rfl

/-! ## Lemmas about the upsert chain -/

theorem upsertRowPure_lookup (cols : List String) (tbl : Table) (vals : List Value) (κ : Value) :
    (upsertRowPure cols tbl vals).lookup κ =
      if idOf cols vals = κ then some (nextRow (tbl.lookup (idOf cols vals)) cols vals)
      else tbl.lookup κ := by
  by_cases h : idOf cols vals = κ
  · rw [if_pos h]
    show (tbl.insert (idOf cols vals) _).lookup κ = _
    rw [← h, Finmap.lookup_insert]
  · rw [if_neg h]
    show (tbl.insert (idOf cols vals) _).lookup κ = _
    exact Finmap.lookup_insert_of_ne tbl (fun hc => h hc.symm)

theorem chainAt_cons (cols : List String) (κ : Value) (v : List Value)
    (ts : List (List Value)) (o : Option RowF) :
    chainAt cols κ (v :: ts) o =
      chainAt cols κ ts (if idOf cols v = κ then some (nextRow o cols v) else o) := rfl

theorem matchChain_cons (cols : List String) (v : List Value) (ms : List (List Value))
    (o : Option RowF) :
    matchChain cols (v :: ms) o = matchChain cols ms (some (nextRow o cols v)) := rfl

theorem chain_lookup (cols : List String) (κ : Value) :
    ∀ (tuples : List (List Value)) (tbl : Table),
      (upsertChain cols tuples tbl).lookup κ = chainAt cols κ tuples (tbl.lookup κ) := by
  intro tuples
  induction tuples with
  | nil => intro tbl; rfl
  | cons v ts ih =>
    intro tbl
    show (upsertChain cols ts (upsertRowPure cols tbl v)).lookup κ = _
    rw [ih, upsertRowPure_lookup, chainAt_cons]
    by_cases h : idOf cols v = κ
    · rw [h]
    · rw [if_neg h, if_neg h]

theorem chainAt_filter (cols : List String) (κ : Value) :
    ∀ (tuples : List (List Value)) (o : Option RowF),
      chainAt cols κ tuples o =
        matchChain cols (tuples.filter (fun vals => decide (idOf cols vals = κ))) o := by
  intro tuples
  induction tuples with
  | nil => intro o; rfl
  | cons v ts ih =>
    intro o
    rw [chainAt_cons, List.filter_cons]
    by_cases h : idOf cols v = κ
    · have hd : decide (idOf cols v = κ) = true := by simp [h]
      rw [hd, if_pos rfl, matchChain_cons, if_pos h]
      exact ih _
    · have hd : decide (idOf cols v = κ) = false := by simp [h]
      rw [hd, if_neg h]
      simp only [Bool.false_eq_true, if_false]
      exact ih o

theorem matchChain_onSome (cols : List String) :
    ∀ (ms : List (List Value)) (r : RowF),
      matchChain cols ms (some r) = some (rowUpd r (bigP cols ms)) := by
  intro ms
  induction ms with
  | nil => intro r; show some r = some (rowUpd r []); rfl
  | cons m ms ih =>
    intro r
    rw [matchChain_cons]
    show matchChain cols ms (some (rowUpd r (pairsOf cols m))) = _
    rw [ih]
    show _ = some (rowUpd r (pairsOf cols m ++ bigP cols ms))
    rw [rowUpd_append]

theorem plast_pairsOf_ne_id (cols : List String) (vals : List Value) (c : String) (w : Value)
    (h : plast (pairsOf cols vals) c = some w) : c ≠ "id" := by
  intro hc
  have hm := plast_some_mem c _ w h
  rcases List.mem_map.mp hm with ⟨p, hp, hfst⟩
  have hmem := List.mem_filter.mp hp
  exact (of_decide_eq_true hmem.2) (hfst.trans hc)

theorem rowStable (cols : List String) :
    ∀ (ms : List (List Value)) (x : Option RowF) (R : RowF),
      matchChain cols ms x = some R → rowUpd R (bigP cols ms) = R := by
  intro ms
  cases ms with
  | nil =>
    intro x R _
    show rowUpd R [] = R
    rfl
  | cons m ms =>
    intro x R h
    rw [matchChain_cons, matchChain_onSome] at h
    cases h
    apply Finmap.ext_lookup
    intro c
    rw [rowUpd_lookup]
    cases hp : plast (bigP cols (m :: ms)) c with
    | none => rfl
    | some w =>
      rw [ofirst_some_left, rowUpd_lookup]
      have hps : plast (bigP cols (m :: ms)) c =
          ofirst (plast (bigP cols ms) c) (plast (pairsOf cols m) c) := by
        show plast (pairsOf cols m ++ bigP cols ms) c = _
        exact plast_append _ _ c
      rw [hps] at hp
      cases hB : plast (bigP cols ms) c with
      | some wB =>
        rw [hB, ofirst_some_left] at hp
        rw [ofirst_some_left]
        exact hp.symm
      | none =>
        rw [hB] at hp
        have hp₂ : plast (pairsOf cols m) c = some w := hp
        have hcid : c ≠ "id" := plast_pairsOf_ne_id cols m c w hp₂
        show some w = ofirst none ((nextRow x cols m).lookup c)
        cases x with
        | some r =>
          show some w = (rowUpd r (pairsOf cols m)).lookup c
          rw [rowUpd_lookup, hp₂, ofirst_some_left]
        | none =>
          show some w = (mkRowF cols m).lookup c
          rw [mkRowF_lookup]
          have hfil := plast_filter_ne_id c hcid (cols.zip m)
          rw [← hfil]
          exact hp₂.symm

theorem matchChainIdem (cols : List String) :
    ∀ (ms : List (List Value)) (x : Option RowF),
      matchChain cols ms (matchChain cols ms x) = matchChain cols ms x := by
  intro ms x
  cases ms with
  | nil => rfl
  | cons m ms =>
    have hR : matchChain cols (m :: ms) x =
        some (rowUpd (nextRow x cols m) (bigP cols ms)) := by
      rw [matchChain_cons, matchChain_onSome]
    rw [hR, matchChain_cons, matchChain_onSome]
    show some (rowUpd (rowUpd (rowUpd (nextRow x cols m) (bigP cols ms)) (pairsOf cols m)) (bigP cols ms)) = _
    rw [← rowUpd_append]
    exact congrArg some (rowStable cols (m :: ms) x _ hR)

theorem chainIdem (cols : List String) (κ : Value) (tuples : List (List Value)) (x : Option RowF) :
    chainAt cols κ tuples (chainAt cols κ tuples x) = chainAt cols κ tuples x := by
  rw [chainAt_filter cols κ tuples x, chainAt_filter cols κ tuples]
  exact matchChainIdem cols _ _

theorem upsertChainIdem (cols : List String) (tuples : List (List Value)) (tbl : Table) :
    upsertChain cols tuples (upsertChain cols tuples tbl) = upsertChain cols tuples tbl := by
  apply Finmap.ext_lookup
  intro κ
  rw [chain_lookup, chain_lookup]
  exact chainIdem cols κ tuples _

/-! ## Lemmas about the executed upsert statement -/

theorem upsertFold_ok_iff (cols : List String) :
    ∀ (tuples : List (List Value)) (tbl tbl₂ : Table),
      upsertFold cols tbl tuples = Except.ok tbl₂ ↔
        ((∀ vals ∈ tuples, idOf cols vals ≠ Value.vNull) ∧
          tbl₂ = upsertChain cols tuples tbl) := by
  intro tuples
  induction tuples with
  | nil =>
    intro tbl tbl₂
    constructor
    · intro h
      cases h
      exact ⟨fun v hv => absurd hv (List.not_mem_nil v), rfl⟩
    · rintro ⟨-, h⟩
      rw [h]
      rfl
  | cons v ts ih =>
    intro tbl tbl₂
    simp only [upsertFold, upsertTable]
    by_cases h : idOf cols v = Value.vNull
    · rw [if_pos h]
      constructor
      · intro hc
        exact Except.noConfusion hc
      · rintro ⟨hall, -⟩
        exact (hall v (List.mem_cons_self v ts) h).elim
    · rw [if_neg h]
      show upsertFold cols (upsertRowPure cols tbl v) ts = Except.ok tbl₂ ↔ _
      rw [ih]
      constructor
      · rintro ⟨hall, he⟩
        refine ⟨?_, he⟩
        intro u hu
        rcases List.mem_cons.mp hu with h1 | h1
        · rw [h1]; exact h
        · exact hall u h1
      · rintro ⟨hall, he⟩
        exact ⟨fun u hu => hall u (List.mem_cons_of_mem v hu), he⟩

theorem execUpsertMany_ok_iff (cols : List String) (tbl tbl₂ : Table)
    (tuples : List (List Value)) :
    execUpsertMany cols tbl tuples = Except.ok tbl₂ ↔
      (cols.Nodup ∧ nonKeyCols cols ≠ [] ∧
        (∀ vals ∈ tuples, idOf cols vals ≠ Value.vNull) ∧
        tbl₂ = upsertChain cols tuples tbl) := by
  simp only [execUpsertMany]
  by_cases h1 : cols.Nodup
  · rw [if_neg (not_not_intro h1)]
    by_cases h2 : nonKeyCols cols = []
    · rw [if_pos h2]
      constructor
      · intro hc
        exact Except.noConfusion hc
      · rintro ⟨-, hne, -⟩
        exact (hne h2).elim
    · rw [if_neg h2, upsertFold_ok_iff]
      constructor
      · rintro ⟨ha, hb⟩
        exact ⟨h1, h2, ha, hb⟩
      · rintro ⟨-, -, ha, hb⟩
        exact ⟨ha, hb⟩
  · rw [if_pos h1]
    constructor
    · intro hc
      exact Except.noConfusion hc
    · rintro ⟨hnd, -⟩
      exact (h1 hnd).elim

theorem execUpsertMany_idem (cols : List String) (tbl tbl₂ : Table)
    (tuples : List (List Value))
    (h : execUpsertMany cols tbl tuples = Except.ok tbl₂) :
    execUpsertMany cols tbl₂ tuples = Except.ok tbl₂ := by
  rcases (execUpsertMany_ok_iff cols tbl tbl₂ tuples).mp h with ⟨h1, h2, h3, h4⟩
  refine (execUpsertMany_ok_iff cols tbl₂ tbl₂ tuples).mpr ⟨h1, h2, h3, ?_⟩
  rw [h4]
  exact (upsertChainIdem cols tuples tbl).symm

/-! ## Store-level lemmas about the loader loop -/

theorem load_table_frame (files : Files) (s : Store) (t : String) (s₂ : Store) (n : Nat)
    (h : load_table files s t = Except.ok (s₂, n)) :
    ∀ u, u ≠ t → s₂.lookup u = s.lookup u := by
  intro u hu
  simp only [load_table] at h
  cases hm : alookup csv_mappings t with
  | none => simp only [hm] at h; cases h; rfl
  | some file =>
    simp only [hm] at h
    cases hf : alookup files file with
    | none => simp only [hf] at h; cases h; rfl
    | some df =>
      simp only [hf] at h
      cases hc : clean_data df t with
      | error e => simp only [hc] at h; exact Except.noConfusion h
      | ok cleaned =>
        simp only [hc] at h
        by_cases hr : cleaned.rows = []
        · rw [if_pos hr] at h; cases h; rfl
        · rw [if_neg hr] at h
          cases he : execUpsertMany cleaned.cols (getTableF s t) cleaned.rows with
          | error e => simp only [he] at h; exact Except.noConfusion h
          | ok tbl =>
            simp only [he] at h
            cases h
            exact Finmap.lookup_insert_of_ne s hu

theorem load_table_rerun (files : Files) (s : Store) (t : String) (s₂ s₃ : Store) (n : Nat)
    (h : load_table files s t = Except.ok (s₂, n)) (h₃ : s₃.lookup t = s₂.lookup t) :
    load_table files s₃ t = Except.ok (s₃, n) := by
  simp only [load_table] at h ⊢
  cases hm : alookup csv_mappings t with
  | none => simp only [hm] at h ⊢; cases h; rfl
  | some file =>
    simp only [hm] at h ⊢
    cases hf : alookup files file with
    | none => simp only [hf] at h ⊢; cases h; rfl
    | some df =>
      simp only [hf] at h ⊢
      cases hc : clean_data df t with
      | error e => simp only [hc] at h; exact Except.noConfusion h
      | ok cleaned =>
        simp only [hc] at h ⊢
        by_cases hr : cleaned.rows = []
        · rw [if_pos hr] at h ⊢; cases h; rfl
        · rw [if_neg hr] at h ⊢
          cases he : execUpsertMany cleaned.cols (getTableF s t) cleaned.rows with
          | error e => simp only [he] at h; exact Except.noConfusion h
          | ok tbl =>
            simp only [he] at h
            cases h
            have hlk : s₃.lookup t = some tbl := by
              rw [h₃]
              exact Finmap.lookup_insert s
            have hgt : getTableF s₃ t = tbl := by
              simp [getTableF, hlk]
            rw [hgt, execUpsertMany_idem cleaned.cols (getTableF s t) tbl cleaned.rows he]
            show Except.ok (setTableF s₃ t tbl, cleaned.rows.length) = _
            have hset : setTableF s₃ t tbl = s₃ := by
              apply Finmap.ext_lookup
              intro u
              by_cases hu : u = t
              · rw [hu]
                show (s₃.insert t tbl).lookup t = _
                rw [Finmap.lookup_insert, hlk]
              · exact Finmap.lookup_insert_of_ne s₃ hu
            rw [hset]

theorem loadLoop_frame (files : Files) :
    ∀ (ts : List String) (s sF : Store) (res : List (String × Nat)),
      loadLoop files s ts = Except.ok (sF, res) →
      ∀ u, u ∉ ts → sF.lookup u = s.lookup u := by
  intro ts
  induction ts with
  | nil =>
    intro s sF res h u _
    cases h
    rfl
  | cons t ts ih =>
    intro s sF res h u hu
    simp only [loadLoop] at h
    cases hlt : load_table files s t with
    | error e => simp only [hlt] at h; exact Except.noConfusion h
    | ok p =>
      obtain ⟨s₂, n⟩ := p
      simp only [hlt] at h
      cases hll : loadLoop files s₂ ts with
      | error e => simp only [hll] at h; exact Except.noConfusion h
      | ok q =>
        obtain ⟨s₃, res₃⟩ := q
        simp only [hll] at h
        cases h
        have h1 : u ∉ ts := fun hc => hu (List.mem_cons_of_mem t hc)
        have h2 : u ≠ t := fun hc => hu (hc ▸ List.mem_cons_self t ts)
        rw [ih s₂ _ res₃ hll u h1]
        exact load_table_frame files s t s₂ n hlt u h2

theorem loadLoop_rerun (files : Files) :
    ∀ (ts : List String), ts.Nodup →
      ∀ (s sF : Store) (res : List (String × Nat)),
        loadLoop files s ts = Except.ok (sF, res) →
        ∃ res₂, loadLoop files sF ts = Except.ok (sF, res₂) := by
  intro ts
  induction ts with
  | nil =>
    intro _ s sF res h
    cases h
    exact ⟨[], rfl⟩
  | cons t ts ih =>
    intro hnd s sF res h
    rw [List.nodup_cons] at hnd
    simp only [loadLoop] at h
    cases hlt : load_table files s t with
    | error e => simp only [hlt] at h; exact Except.noConfusion h
    | ok p =>
      obtain ⟨s₂, n⟩ := p
      simp only [hlt] at h
      cases hll : loadLoop files s₂ ts with
      | error e => simp only [hll] at h; exact Except.noConfusion h
      | ok q =>
        obtain ⟨s₃, res₃⟩ := q
        simp only [hll] at h
        cases h
        have hframe : sF.lookup t = s₂.lookup t :=
          loadLoop_frame files ts s₂ sF res₃ hll t hnd.1
        have hlt₂ : load_table files sF t = Except.ok (sF, n) :=
          load_table_rerun files s t s₂ sF n hlt hframe
        rcases ih hnd.2 s₂ sF res₃ hll with ⟨res₄, h₄⟩
        refine ⟨(t, n) :: res₄, ?_⟩
        simp only [loadLoop, hlt₂, h₄]

/-- C1: if any table raises during `load_all_tables`, the transaction
is rolled back — the destination store after the call equals the store
before it (no rows from any table of the batch are applied) — and the
error is re-raised; the `Except.error` result carries no per-table
results. -/
theorem claim_C1 (files : Files) (s : Store) (e : String)
    (h : (load_all_tables files s).2 = Except.error e) :
    (load_all_tables files s).1 = s := by
  simp only [load_all_tables] at h ⊢
  cases hl : loadLoop files s table_load_order with
  | error e2 =>
    simp only [hl]
  | ok p =>
    obtain ⟨s₂, res⟩ := p
    simp only [hl] at h
    exact Except.noConfusion h

/-- Concrete failing batch for the C1 witness: `BIO_VIP.csv` holds a
fractional `id`, so cleaning the first table raises. -/
def filesBad : Files := [("BIO_VIP.csv", ⟨["id"], [[Value.vStr "1.5"]]⟩)]

theorem claim_C1_witness :
    (load_all_tables filesBad ∅).2 = Except.error castErrMsg ∧
      (load_all_tables filesBad ∅).1 = ∅ :=
  ⟨by decide, claim_C1 filesBad ∅ castErrMsg (by decide)⟩

/-- C3: a table whose source CSV file is absent loads as 0 rows without
raising, and the loader loop records 0 for it and continues with the
remaining tables unchanged. -/
theorem claim_C3 (files : Files) (s : Store) (t f : String)
    (h1 : alookup csv_mappings t = some f) (h2 : alookup files f = none) :
    load_table files s t = Except.ok (s, 0) ∧
    ∀ rest, loadLoop files s (t :: rest) =
      Except.map (fun p => (p.1, (t, 0) :: p.2)) (loadLoop files s rest) := by
  have ha : load_table files s t = Except.ok (s, 0) := by
    simp only [load_table, h1, h2]
  refine ⟨ha, ?_⟩
  intro rest
  simp only [loadLoop, ha]
  cases hll : loadLoop files s rest with
  | error e => simp only [hll]; rfl
  | ok q =>
    obtain ⟨s₃, res⟩ := q
    simp only [hll]
    rfl

theorem claim_C3_witness :
    alookup csv_mappings "bio_vip" = some "BIO_VIP.csv" ∧
    alookup ([] : Files) "BIO_VIP.csv" = none ∧
    load_table [] ∅ "bio_vip" = Except.ok (∅, 0) ∧
    loadLoop [] ∅ ["bio_vip", "bio_email"] =
      Except.map (fun p => (p.1, ("bio_vip", 0) :: p.2)) (loadLoop [] ∅ ["bio_email"]) :=
  ⟨by decide, rfl, (claim_C3 [] ∅ "bio_vip" "BIO_VIP.csv" (by decide) rfl).1,
    (claim_C3 [] ∅ "bio_vip" "BIO_VIP.csv" (by decide) rfl).2 ["bio_email"]⟩

/-- C6: `load_all_tables` is idempotent on the destination store — for
fixed source data, running it a second time from the store the first
run produced leaves that store unchanged (same tables, same rows, same
counts). -/
theorem claim_C6 (files : Files) (s : Store) :
    (load_all_tables files ((load_all_tables files s).1)).1 = (load_all_tables files s).1 := by
  cases hl : loadLoop files s table_load_order with
  | error e =>
    have h1 : (load_all_tables files s).1 = s := by
      simp only [load_all_tables, hl]
    rw [h1]
    exact h1
  | ok p =>
    obtain ⟨sF, res⟩ := p
    have h1 : (load_all_tables files s).1 = sF := by
      simp only [load_all_tables, hl]
    rw [h1]
    have hnd : table_load_order.Nodup := by decide
    rcases loadLoop_rerun files table_load_order hnd s sF res hl with ⟨res₂, h₂⟩
    simp only [load_all_tables, h₂]

/-! ## Upsert conflict semantics (C5) -/

theorem rowUpd_pairs_lookup (cols : List String) (vals : List Value) (r : RowF) (c : String)
    (hnd : cols.Nodup) (hlen : cols.length = vals.length) (hmem : c ∈ cols) (hc : c ≠ "id") :
    (rowUpd r (pairsOf cols vals)).lookup c = alookup (cols.zip vals) c := by
  rw [rowUpd_lookup]
  have hkeys : (cols.zip vals).map Prod.fst = cols := List.map_fst_zip cols vals (le_of_eq hlen)
  have hpz : plast (pairsOf cols vals) c = plast (cols.zip vals) c :=
    plast_filter_ne_id c hc (cols.zip vals)
  have hpa : plast (cols.zip vals) c = alookup (cols.zip vals) c :=
    plast_eq_alookup_of_nodup c _ (by rw [hkeys]; exact hnd)
  rcases alookup_isSome_of_mem_keys c (cols.zip vals) (by rw [hkeys]; exact hmem) with ⟨w, hw⟩
  rw [hpz, hpa, hw]
  rfl

/-- C5: executing the upsert on a row whose key `k` (the value of the
declared primary-key column `id`, the conflict target) already exists
in the table replaces the stored row by the old row with every non-key
insert column overwritten by the incoming value (last-writer-wins),
leaving all other keys untouched; a row whose key has no conflict is
inserted as a fresh row. -/
theorem claim_C5 (cols : List String) (vals : List Value) (tbl : Table) (k : Value)
    (h1 : cols.Nodup) (h2 : cols.length = vals.length)
    (h3 : idOf cols vals = k) (h4 : k ≠ Value.vNull) :
    (∀ r, tbl.lookup k = some r →
      upsertTable cols tbl vals =
          Except.ok (tbl.insert k (rowUpd r (pairsOf cols vals))) ∧
        (∀ c, c ∈ cols → c ≠ "id" →
          (rowUpd r (pairsOf cols vals)).lookup c = alookup (cols.zip vals) c) ∧
        (∀ κ, κ ≠ k →
          (tbl.insert k (rowUpd r (pairsOf cols vals))).lookup κ = tbl.lookup κ)) ∧
    (tbl.lookup k = none →
      upsertTable cols tbl vals = Except.ok (tbl.insert k (mkRowF cols vals))) := by
  constructor
  · intro r hr
    refine ⟨?_, ?_, ?_⟩
    · simp only [upsertTable, upsertRowPure]
      rw [h3, if_neg h4, hr]
      rfl
    · intro c hcm hcid
      exact rowUpd_pairs_lookup cols vals r c h1 h2 hcm hcid
    · intro κ hκ
      exact Finmap.lookup_insert_of_ne tbl hκ
  · intro hr
    simp only [upsertTable, upsertRowPure]
    rw [h3, if_neg h4, hr]
    rfl

/-- Concrete stored row for the C5 witness. -/
def rowOld : RowF := mkRowF ["id", "email"] [Value.vInt 5, Value.vStr "old"]

/-- Concrete one-row table for the C5 witness. -/
def tblOld : Table := (∅ : Table).insert (Value.vInt 5) rowOld

theorem claim_C5_witness :
    (["id", "email"] : List String).Nodup ∧
    (["id", "email"] : List String).length =
      ([Value.vInt 5, Value.vStr "new"] : List Value).length ∧
    idOf ["id", "email"] [Value.vInt 5, Value.vStr "new"] = Value.vInt 5 ∧
    Value.vInt 5 ≠ Value.vNull ∧
    upsertTable ["id", "email"] tblOld [Value.vInt 5, Value.vStr "new"] =
      Except.ok (tblOld.insert (Value.vInt 5)
        (rowUpd rowOld (pairsOf ["id", "email"] [Value.vInt 5, Value.vStr "new"]))) ∧
    (rowUpd rowOld (pairsOf ["id", "email"] [Value.vInt 5, Value.vStr "new"])).lookup "email" =
      alookup ((["id", "email"] : List String).zip [Value.vInt 5, Value.vStr "new"]) "email" :=
  ⟨by decide, by decide, by decide, by decide,
    ((claim_C5 ["id", "email"] [Value.vInt 5, Value.vStr "new"] tblOld (Value.vInt 5)
      (by decide) (by decide) (by decide) (by decide)).1 rowOld
        (Finmap.lookup_insert (∅ : Table))).1,
    (((claim_C5 ["id", "email"] [Value.vInt 5, Value.vStr "new"] tblOld (Value.vInt 5)
      (by decide) (by decide) (by decide) (by decide)).1 rowOld
        (Finmap.lookup_insert (∅ : Table))).2.1 "email" (by decide) (by decide))⟩

/-! ## Configuration validation and the main driver (C7, C9) -/

/-- C7: `validate_config` accepts exactly when all five required keys
are present and the `port` value is coercible to an integer; when it
rejects, `main` exits with code 1 immediately — the trace holds no
connect event, so no store connection is attempted. -/
theorem claim_C7 (cfg : List (String × PyVal)) (co : Bool) (files : Files) (s : Store)
    (vo : Bool) :
    (validate_config cfg = true ↔
      ((∀ k ∈ required_keys, (alookup cfg k).isSome = true) ∧
        ∃ pv, alookup cfg "port" = some pv ∧ pyIntOk pv = true)) ∧
    (validate_config cfg = false →
      pyMain cfg co files s vo = ⟨[Event.exitEv 1], 1, s⟩ ∧
        Event.connectEv ∉ (pyMain cfg co files s vo).trace) := by
  constructor
  · simp only [validate_config]
    by_cases hall : required_keys.all (fun k => (alookup cfg k).isSome) = true
    · rw [if_pos hall]
      have hforall : ∀ k ∈ required_keys, (alookup cfg k).isSome = true :=
        List.all_eq_true.mp hall
      constructor
      · intro hport
        refine ⟨hforall, ?_⟩
        have hsome : (alookup cfg "port").isSome = true := hforall "port" (by decide)
        rcases Option.isSome_iff_exists.mp hsome with ⟨pv, hpv⟩
        refine ⟨pv, hpv, ?_⟩
        rw [hpv] at hport
        exact hport
      · rintro ⟨-, pv, hpv, hok⟩
        rw [hpv]
        exact hok
    · rw [if_neg hall]
      constructor
      · intro hc
        exact Bool.noConfusion hc
      · rintro ⟨hk, -⟩
        exact (hall (List.all_eq_true.mpr hk)).elim
  · intro hv
    have hout : pyMain cfg co files s vo = ⟨[Event.exitEv 1], 1, s⟩ := by
      simp [pyMain, hv]
    rw [hout]
    refine ⟨rfl, ?_⟩
    show Event.connectEv ∉ [Event.exitEv 1]
    decide

/-- Invalid configuration for the C7 witness: four keys missing. -/
def cfgBad : List (String × PyVal) := [("host", PyVal.pStr "localhost")]

theorem claim_C7_witness :
    validate_config cfgBad = false ∧
    pyMain cfgBad true [] ∅ false = ⟨[Event.exitEv 1], 1, ∅⟩ ∧
    Event.connectEv ∉ (pyMain cfgBad true [] ∅ false).trace :=
  ⟨by decide,
    ((claim_C7 cfgBad true [] ∅ false).2 (by decide)).1,
    ((claim_C7 cfgBad true [] ∅ false).2 (by decide)).2⟩

/-- C9: whenever a run of `main` reaches `load_all_tables` (valid
configuration, successful connection, not verify-only), the run ends
in a terminal state — committed or rolled back — and the connection is
closed: the close event is the last event of the trace on both exit
paths. -/
theorem claim_C9 (cfg : List (String × PyVal)) (files : Files) (s : Store)
    (h1 : validate_config cfg = true) :
    (pyMain cfg true files s false).trace.getLast? = some Event.closeEv ∧
    (Event.commitEv ∈ (pyMain cfg true files s false).trace ∨
      Event.rollbackEv ∈ (pyMain cfg true files s false).trace) := by
  rcases hl : load_all_tables files s with ⟨s₂, r⟩
  cases r with
  | ok res =>
    have hout : pyMain cfg true files s false =
        ⟨[Event.connectEv, Event.commitEv, Event.verifyEv, Event.closeEv], 0, s₂⟩ := by
      simp [pyMain, h1, hl]
    rw [hout]
    constructor
    · show ([Event.connectEv, Event.commitEv, Event.verifyEv, Event.closeEv]).getLast? =
        some Event.closeEv
      decide
    · refine Or.inl ?_
      show Event.commitEv ∈ [Event.connectEv, Event.commitEv, Event.verifyEv, Event.closeEv]
      decide
  | error e =>
    have hout : pyMain cfg true files s false =
        ⟨[Event.connectEv, Event.rollbackEv, Event.exitEv 1, Event.closeEv], 1, s₂⟩ := by
      simp [pyMain, h1, hl]
    rw [hout]
    constructor
    · show ([Event.connectEv, Event.rollbackEv, Event.exitEv 1, Event.closeEv]).getLast? =
        some Event.closeEv
      decide
    · refine Or.inr ?_
      show Event.rollbackEv ∈ [Event.connectEv, Event.rollbackEv, Event.exitEv 1, Event.closeEv]
      decide

/-- Valid configuration for the C9 witness. -/
def cfgGood : List (String × PyVal) :=
  [("host", PyVal.pStr "localhost"), ("port", PyVal.pInt 5432),
   ("database", PyVal.pStr "db"), ("user", PyVal.pStr "u"), ("password", PyVal.pStr "p")]

theorem claim_C9_witness :
    validate_config cfgGood = true ∧
    (pyMain cfgGood true [] ∅ false).trace.getLast? = some Event.closeEv ∧
    (Event.commitEv ∈ (pyMain cfgGood true [] ∅ false).trace ∨
      Event.rollbackEv ∈ (pyMain cfgGood true [] ∅ false).trace) :=
  ⟨by decide, (claim_C9 cfgGood [] ∅ (by decide)).1, (claim_C9 cfgGood [] ∅ (by decide)).2⟩

/-! ## Verification pass (C8) -/

theorem verify_foldl (s : Store) :
    ∀ (ts : List String) (acc : List (String × Nat)),
      ts.foldl (fun acc t =>
        ((execCount acc.1 t).1, acc.2 ++ [(t, (execCount acc.1 t).2)])) (s, acc) =
      (s, acc ++ ts.map (fun t => (t, countRows s t))) := by
  intro ts
  induction ts with
  | nil => intro acc; simp
  | cons t ts ih =>
    intro acc
    rw [List.foldl_cons]
    show ts.foldl _ (s, acc ++ [(t, countRows s t)]) = _
    rw [ih]
    simp

/-- C8: `verify_data` issues exactly one row-count query per table, in
the fixed declared order, returns the table-to-count mapping, and
leaves the store unchanged (it only reads the committed state). -/
theorem claim_C8 (s : Store) :
    (verify_data s).1 = s ∧
    (verify_data s).2 = table_load_order.map (fun t => (t, countRows s t)) ∧
    (verify_data s).2.map Prod.fst = table_load_order := by
  have hv : verify_data s = (s, table_load_order.map (fun t => (t, countRows s t))) := by
    simp only [verify_data]
    rw [verify_foldl s table_load_order []]
    simp
  rw [hv]
  refine ⟨rfl, rfl, ?_⟩
  rfl

/-! ## Spreadsheet converter (C10) -/

theorem convert_foldl (d : String) :
    ∀ (ss : List Sheet) (acc : List String),
      ss.foldl (fun acc sh =>
        match sh.readResult with
        | Except.error _ => acc
        | Except.ok _ => acc ++ [csvPath d sh.name]) acc =
      acc ++ (ss.filter (fun sh => exceptOk sh.readResult)).map (fun sh => csvPath d sh.name) := by
  intro ss
  induction ss with
  | nil => intro acc; simp
  | cons sh ss ih =>
    intro acc
    rw [List.foldl_cons, List.filter_cons]
    cases hr : sh.readResult with
    | error e =>
      have hx : exceptOk (Except.error e : Except String (List (List Value))) = false := rfl
      simp only [hr, hx, Bool.false_eq_true, if_false]
      exact ih acc
    | ok v =>
      have hx : exceptOk (Except.ok v : Except String (List (List Value))) = true := rfl
      simp only [hr, hx, eq_self_iff_true, if_true]
      rw [ih]
      simp

/-- C10: on a readable `.xlsx` workbook, the converter never raises in
the per-sheet loop: it returns exactly the output paths of the sheets
whose read succeeded, in order — a failing sheet is skipped and the
remaining sheets are still converted. -/
theorem claim_C10 (sheets : List Sheet) (d : String) :
    convert_excel_to_csv ⟨true, ".xlsx", true, sheets⟩ d =
      Except.ok ((sheets.filter (fun sh => exceptOk sh.readResult)).map
        (fun sh => csvPath d sh.name)) := by
  simp only [convert_excel_to_csv]
  rw [if_neg (by decide), if_neg (by decide), if_neg (by decide)]
  rw [convert_foldl d sheets []]
  simp

end UtSrDe
